import Mathlib

/-!
Verification of the Amulet plugin `structure_block_exporter.py`.

The Python source is embedded shallowly:

* the NBT node tree handled by `_iter_nbt_tree` becomes the inductive `Nbt`
  (compound, list, string and integer tags; an `other` constructor stands for
  any scalar tag that is neither a string nor an integer, e.g. byte arrays --
  such tags are never recursed into and never coerce, exactly as in the code;
  float tags are outside the model);
* Python `str` becomes `String`, Python `int` becomes `Int`, Python `float`
  (used only for object positions) becomes `Rat`, exact on every value the
  comparisons and subtractions in the code are exact on;
* world access (`get_block`, the block-entity map built by
  `_collect_block_entities_in_box`, the entity stream of the scanned chunks)
  is a `World` record of total functions; chunk enumeration itself is the
  host's job and stays outside the model;
* `int(x)` on a float is truncation toward zero (`pyInt`), `str.lower` on the
  ASCII keys involved is `asciiLower`, `sub in s` is `strContains`,
  `int(str)` follows Python's base-10 grammar (`parsePyInt`), and
  `str.strip` is `String.trim` (the ASCII whitespace fragment).
-/

namespace StructureBlockExporter

/-! ## Strings: lowering, containment, Python int() parsing -/

/-- ASCII lowering of one character; models Python `str.lower` on the ASCII
keys the plugin matches against. -/
def charLower (c : Char) : Char :=
  if 65 ≤ c.toNat ∧ c.toNat ≤ 90 then Char.ofNat (c.toNat + 32) else c

/-- Models `str(k).lower()` from `_find_first_str` / `_find_first_int`. -/
def asciiLower (s : String) : String :=
  String.mk (s.data.map charLower)

/-- `subList sub hay = true` iff `sub` occurs contiguously in `hay`;
models Python `sub in hay` on strings. -/
def subList (sub : List Char) : List Char → Bool
  | [] => sub.isPrefixOf []
  | c :: t => sub.isPrefixOf (c :: t) || subList sub t

/-- Python `sub in hay` for strings. -/
def strContains (hay sub : String) : Bool :=
  subList sub.data hay.data

/-- The key test of `_find_first_str` / `_find_first_int`:
`any(s in lk for s in key_substrings)` with `lk = str(k).lower()`. -/
def keyMatches (subs : List String) (k : String) : Bool :=
  subs.any fun s => strContains (asciiLower k) s

/-- Numeric value of an ASCII digit. -/
def digitVal (c : Char) : Nat := c.toNat - 48

/-- Digits of a Python base-10 integer literal after the first one: a digit,
or an underscore followed by a digit (Python allows single separating
underscores between digits). -/
def pduAux : Nat → List Char → Option Nat
  | acc, [] => some acc
  | acc, c :: rest =>
    if c.isDigit then pduAux (acc * 10 + digitVal c) rest
    else if c = '_' then
      match rest with
      | [] => none
      | d :: rest2 => if d.isDigit then pduAux (acc * 10 + digitVal d) rest2 else none
    else none

/-- A nonempty digit sequence (with optional separating underscores). -/
def parseDigits : List Char → Option Nat
  | [] => none
  | c :: rest => if c.isDigit then pduAux (digitVal c) rest else none

/-- Models Python `int(s)` on a string: optional surrounding whitespace,
optional sign, base-10 digits.  Anything else (e.g. `"12.5"`) raises in
Python and is `none` here. -/
def parsePyInt (s : String) : Option Int :=
  match s.trim.data with
  | '+' :: rest => (parseDigits rest).map fun n => (n : Int)
  | '-' :: rest => (parseDigits rest).map fun n => -(n : Int)
  | cs => (parseDigits cs).map fun n => (n : Int)

/-! ## The NBT tree and `_iter_nbt_tree` -/

/-- The node tree `_iter_nbt_tree` walks: compound tags (ordered key/value
pairs, Python dict iteration order), list tags, string tags, integer-valued
tags (Byte/Short/Int/Long), and `other` for any remaining scalar shape. -/
inductive Nbt where
  | compound : List (String × Nbt) → Nbt
  | list : List Nbt → Nbt
  | string : String → Nbt
  | int : Int → Nbt
  | other : Nbt

/-- `_nbt_value` followed by the `isinstance(val, str)` test. -/
def nbtToStr : Nbt → Option String
  | .string s => some s
  | _ => none

/-- `int(_nbt_value(v))`: integer tags coerce to their value, string tags
parse by Python's grammar, everything else raises (is `none`). -/
def nbtToInt : Nbt → Option Int
  | .int n => some n
  | .string s => parsePyInt s
  | _ => none

/-- Path of a compound child: `f"{prefix}/{k}" if prefix else str(k)`. -/
def cpath (pfx k : String) : String :=
  if pfx = "" then k else pfx ++ "/" ++ k

/-- Path of a list child: `f"{prefix}[{i}]"`. -/
def lpath (pfx : String) (i : Nat) : String :=
  pfx ++ "[" ++ toString i ++ "]"

mutual

/-- `_iter_nbt_tree`: at a compound node each child is yielded
`(path, key, value)` and then descended into when it is itself a compound or
a list; at a list node children are yielded `(path, str(i), value)` in index
order with the same descent rule; scalars yield nothing. -/
def iterNbtTree : Nbt → String → List (String × String × Nbt)
  | .compound [], _ => []
  | .compound ((k, v) :: rest), pfx =>
    ((cpath pfx k, k, v) ::
      (match v with
        | .compound kvs => iterNbtTree (.compound kvs) (cpath pfx k)
        | .list vs => iterNbtTree (.list vs) (cpath pfx k)
        | _ => [])) ++ iterNbtTree (.compound rest) pfx
  | .list vs, pfx => iterListFrom vs 0 pfx
  | _, _ => []
  termination_by t _ => 2 * sizeOf t + 1
  decreasing_by all_goals simp_wf <;> omega

/-- The list branch of `_iter_nbt_tree`, carrying the running index of
`enumerate`. -/
def iterListFrom : List Nbt → Nat → String → List (String × String × Nbt)
  | [], _, _ => []
  | v :: rest, i, pfx =>
    ((lpath pfx i, toString i, v) ::
      (match v with
        | .compound kvs => iterNbtTree (.compound kvs) (lpath pfx i)
        | .list vs => iterNbtTree (.list vs) (lpath pfx i)
        | _ => [])) ++ iterListFrom rest (i + 1) pfx
  termination_by vs _ _ => 2 * sizeOf vs
  decreasing_by all_goals simp_wf <;> omega

end

/-- The descent `_iter_nbt_tree` performs on a yielded child: recurse into
compounds and lists, stop at scalars. -/
def descendIter (v : Nbt) (path : String) : List (String × String × Nbt) :=
  match v with
  | .compound _ => iterNbtTree v path
  | .list _ => iterNbtTree v path
  | _ => []

/-! ## `_find_first_str` / `_find_first_int` -/

/-- The per-node test of `_find_first_str`: on a key match, return the
stripped value when it is a string that is nonempty after stripping. -/
def matchStr (subs : List String) (node : String × String × Nbt) : Option String :=
  if keyMatches subs node.2.1 then
    match nbtToStr node.2.2 with
    | some val => if val.trim = "" then none else some val.trim
    | none => none
  else none

/-- `_find_first_str`: first match over the traversal. -/
def findFirstStr (tag : Nbt) (subs : List String) : Option String :=
  (iterNbtTree tag "").findSome? (matchStr subs)

/-- The per-node test of `_find_first_int`: on a key match, return the value
coerced to an integer; a failing coercion is skipped, not fatal. -/
def matchInt (subs : List String) (node : String × String × Nbt) : Option Int :=
  if keyMatches subs node.2.1 then nbtToInt node.2.2 else none

/-- `_find_first_int`. -/
def findFirstInt (tag : Nbt) (subs : List String) : Option Int :=
  (iterNbtTree tag "").findSome? (matchInt subs)

/-! ## `_parse_structure_block` -/

def nameSubs : List String := ["structurename", "structure_name", "name", "identifier"]

def oxSubs : List String := ["xstructureoffset", "structureoffsetx", "offsetx", "posx"]

def oySubs : List String := ["ystructureoffset", "structureoffsety", "offsety", "posy"]

def ozSubs : List String := ["zstructureoffset", "structureoffsetz", "offsetz", "posz"]

def sxSubs : List String := ["xstructuresize", "structuresizex", "sizex", "size_x"]

def sySubs : List String := ["ystructuresize", "structuresizey", "sizey", "size_y"]

def szSubs : List String := ["zstructuresize", "structuresizez", "sizez", "size_z"]

/-- The record `_parse_structure_block` extracts from a marker candidate. -/
structure MarkerData where
  name : String
  offset : Int × Int × Int
  size : Int × Int × Int
deriving DecidableEq

/-- `_parse_structure_block`: identifier, three offsets and three sizes are
all located fuzzily; a missing piece or a nonpositive size component drops
the candidate (`none`). -/
def parse_structure_block (tag : Nbt) : Option MarkerData :=
  match findFirstStr tag nameSubs with
  | none => none
  | some name =>
    -- `if not name` in the source also drops an empty identifier; the
    -- locator never returns one, but the test is kept for fidelity.
    if name = "" then none
    else
      match findFirstInt tag oxSubs, findFirstInt tag oySubs, findFirstInt tag ozSubs,
            findFirstInt tag sxSubs, findFirstInt tag sySubs, findFirstInt tag szSubs with
      | some ox, some oy, some oz, some sx, some sy, some sz =>
        if sx ≤ 0 ∨ sy ≤ 0 ∨ sz ≤ 0 then none
        else some ⟨name, (ox, oy, oz), (sx, sy, sz)⟩
      | _, _, _, _, _, _ => none

/-! ## Voxel states, `_state_key`, `_universal_block_to_java_state` -/

/-- A voxel as the host exposes it: `namespace`, `base_name` and
`properties` attributes, each possibly missing (`getattr` defaults apply).
The field `nspace` models the `namespace` attribute (`namespace` is a Lean
keyword); `properties` is the dict's items in insertion order, keys and
values already through `str`. -/
structure Block where
  nspace : Option String
  base_name : Option String
  properties : List (String × String)

/-- Python tuple comparison on `(str(k), str(v))` pairs: lexicographic by
code points.  Mathlib's linear order on `String` is exactly code-point
lexicographic. -/
def pairRel (a b : String × String) : Prop :=
  a.1 < b.1 ∨ (a.1 = b.1 ∧ a.2 ≤ b.2)

instance : DecidableRel pairRel := fun a b =>
  inferInstanceAs (Decidable (a.1 < b.1 ∨ (a.1 = b.1 ∧ a.2 ≤ b.2)))

/-- `sorted(...)` on the property pairs. -/
def sortPairs (l : List (String × String)) : List (String × String) :=
  List.insertionSort pairRel l

/-- The palette key type: `(f"{namespace}:{base_name}", sorted props)`. -/
abbrev StateKey := String × List (String × String)

/-- `_state_key`. -/
def state_key (b : Block) : StateKey :=
  ((b.nspace.getD "minecraft") ++ ":" ++ (b.base_name.getD "air"),
   sortPairs b.properties)

/-- A palette entry as serialized: `{Name, Properties?}`, the `Properties`
compound present only when the property dict is nonempty, in insertion
order. -/
structure JavaState where
  name : String
  properties : Option (List (String × String))
deriving DecidableEq

/-- `_universal_block_to_java_state`. -/
def universal_block_to_java_state (b : Block) : JavaState :=
  { name := (b.nspace.getD "minecraft") ++ ":" ++ (b.base_name.getD "air"),
    properties := if b.properties.isEmpty then none else some b.properties }

/-! ## The palette builder (`palette`, `palette_index`, `get_state_index`) -/

/-- The two accumulators of `_export_java_structure_nbt`: the palette list
and the key-to-index dict (association list in insertion order; keys are
inserted at most once, so first-match lookup is dict lookup). -/
structure PaletteState where
  palette : List JavaState
  palette_index : List (StateKey × Nat)

def emptyPalette : PaletteState := ⟨[], []⟩

/-- Dict lookup in `palette_index`. -/
def lookupIdx (m : List (StateKey × Nat)) (k : StateKey) : Option Nat :=
  match m with
  | [] => none
  | (k', i) :: rest => if k' = k then some i else lookupIdx rest k

/-- `get_state_index`: return the memoized index, or append a fresh entry at
index `len(palette)`. -/
def get_state_index (s : PaletteState) (b : Block) : Nat × PaletteState :=
  match lookupIdx s.palette_index (state_key b) with
  | some i => (i, s)
  | none =>
    (s.palette.length,
     ⟨s.palette ++ [universal_block_to_java_state b],
      s.palette_index ++ [(state_key b, s.palette.length)]⟩)

/-- A sequence of `get_state_index` calls, returning the index stream and
the final state. -/
def runPalette (s : PaletteState) : List Block → List Nat × PaletteState
  | [] => ([], s)
  | b :: bs =>
    let r := get_state_index s b
    let rest := runPalette r.2 bs
    (r.1 :: rest.1, rest.2)

/-! ## First-seen order of distinct states (specification side) -/

/-- The first occurrence of each distinct state key, given the keys already
seen. -/
def firstOccsAux (seen : List StateKey) : List Block → List Block
  | [] => []
  | b :: bs =>
    if state_key b ∈ seen then firstOccsAux seen bs
    else b :: firstOccsAux (state_key b :: seen) bs

/-- The distinct states of a push sequence, one representative each, in
first-seen order. -/
def firstOccs (bs : List Block) : List Block := firstOccsAux [] bs

/-- The distinct state keys in first-seen order. -/
def fsKeys (bs : List Block) : List StateKey := (firstOccs bs).map state_key

/-- Index of the first occurrence of `k` (length of the list if absent). -/
def idxOfN (k : StateKey) : List StateKey → Nat
  | [] => 0
  | k' :: rest => if k' = k then 0 else idxOfN k rest + 1

/-- The association list mapping the i-th key to index `n + i`. -/
def idxAssoc : List StateKey → Nat → List (StateKey × Nat)
  | [], _ => []
  | k :: ks, n => (k, n) :: idxAssoc ks (n + 1)

/-! ## Boxes and containment -/

/-- A half-open axis-aligned box, as `SelectionBox` exposes it
(`min_x ... max_z`). -/
structure Box where
  min_x : Int
  min_y : Int
  min_z : Int
  max_x : Int
  max_y : Int
  max_z : Int
deriving DecidableEq

/-- The integer containment test `b.min_x <= x < b.max_x and ...` used at
lines 225 and 334 of the source. -/
def inBox (b : Box) (x y z : Int) : Bool :=
  decide (b.min_x ≤ x) && decide (x < b.max_x) &&
  decide (b.min_y ≤ y) && decide (y < b.max_y) &&
  decide (b.min_z ≤ z) && decide (z < b.max_z)

/-- `in_any_box` from `_iter_structure_blocks`. -/
def in_any_box (boxes : List Box) (p : Int × Int × Int) : Bool :=
  boxes.any fun b => inBox b p.1 p.2.1 p.2.2

/-- Python `range(lo, hi)` over integers. -/
def rangeInt (lo hi : Int) : List Int :=
  (List.range (hi - lo).toNat).map fun (i : Nat) => lo + (i : Int)

/-- The voxel scan order of `_export_java_structure_nbt`: `y` outermost,
then `z`, then `x` (lines 370-372). -/
def scanCoords (box : Box) : List (Int × Int × Int) :=
  (rangeInt box.min_y box.max_y).flatMap fun y =>
    (rangeInt box.min_z box.max_z).flatMap fun z =>
      (rangeInt box.min_x box.max_x).map fun x => (x, y, z)

/-! ## The tree-mode exporter `_export_java_structure_nbt` -/

/-- The skip test of line 377: `getattr(blk, "base_name", "air") == "air"`. -/
def isEmptyVoxel (b : Block) : Bool :=
  decide (b.base_name.getD "air" = "air")

/-- Lines 394-399: delete the top-level `x`, `y`, `z` keys of an attached
block-entity tag (a non-compound tag is left unchanged, as the deletion
attempt raises and is suppressed). -/
def stripXYZ (t : Nbt) : Nbt :=
  match t with
  | .compound kvs =>
    .compound (kvs.filter fun kv => !(kv.1 = "x" ∨ kv.1 = "y" ∨ kv.1 = "z" : Bool))
  | t => t

/-- One element of the `blocks` list: `{pos, state, nbt?}`. -/
structure BlockEntry where
  pos : Int × Int × Int
  state : Nat
  nbt : Option Nbt

/-- One element of the `entities` list: `{pos, blockPos, nbt}`. -/
structure EntityEntry where
  pos : Rat × Rat × Rat
  blockPos : Int × Int × Int
  data : Nbt

/-- The serialized root compound: `size`, `palette`, `blocks`, `entities`. -/
structure StructureDoc where
  size : Int × Int × Int
  palette : List JavaState
  blocks : List BlockEntry
  entities : List EntityEntry

/-- A free-floating object of a scanned chunk.  `pos?` is the result of the
guarded `Pos` extraction of lines 417-430: `none` when the object has no
node data, no 3-element `Pos`, or a non-coercible entry (all skipped);
`data` is the raw attached node. -/
structure Entity where
  pos? : Option (Rat × Rat × Rat)
  data : Nbt

/-- The world as the exporter reads it: `get_block` per voxel, the
block-entity map `_collect_block_entities_in_box` builds (keyed by absolute
position; `none` covers both a missing entry and an entry without node
data), and the object stream of the scanned chunks in iteration order. -/
structure World where
  get_block : Int → Int → Int → Block
  block_entity : Int → Int → Int → Option Nbt
  entities : List Entity

/-- `world.get_block(x, y, z, dimension)` at a coordinate triple. -/
def blkAt (w : World) (c : Int × Int × Int) : Block :=
  w.get_block c.1 c.2.1 c.2.2

/-- The `blocks` entry built at lines 382-403 for the voxel at `c` with
palette index `i`. -/
def mkEntry (w : World) (box : Box) (c : Int × Int × Int) (i : Nat) : BlockEntry :=
  { pos := (c.1 - box.min_x, c.2.1 - box.min_y, c.2.2 - box.min_z),
    state := i,
    nbt := (w.block_entity c.1 c.2.1 c.2.2).map stripXYZ }

/-- The loop body of lines 373-403 for one scanned coordinate, folding the
palette state and the `blocks` accumulator. -/
def exportStep (w : World) (box : Box) (remove_blocks : Bool)
    (acc : PaletteState × List BlockEntry) (c : Int × Int × Int) :
    PaletteState × List BlockEntry :=
  if remove_blocks then acc
  else
    let blk := blkAt w c
    if isEmptyVoxel blk then acc
    else
      let r := get_state_index acc.1 blk
      (r.2, acc.2 ++ [mkEntry w box c r.1])

/-- Python `int(f)` on a float: truncation toward zero. -/
def pyInt (q : Rat) : Int :=
  if 0 ≤ q then ⌊q⌋ else ⌈q⌉

/-- Lines 417-446 for one object: the guarded position extraction, the
half-open float containment test of line 432, and the entry with float
relative position `p - box.min` and block relative position
`int(p) - box.min`. -/
def entityEntry (box : Box) (e : Entity) : Option EntityEntry :=
  match e.pos? with
  | none => none
  | some p =>
    if (box.min_x : Rat) ≤ p.1 ∧ p.1 < (box.max_x : Rat) ∧
       (box.min_y : Rat) ≤ p.2.1 ∧ p.2.1 < (box.max_y : Rat) ∧
       (box.min_z : Rat) ≤ p.2.2 ∧ p.2.2 < (box.max_z : Rat) then
      some { pos := (p.1 - (box.min_x : Rat), p.2.1 - (box.min_y : Rat),
                     p.2.2 - (box.min_z : Rat)),
             blockPos := (pyInt p.1 - box.min_x, pyInt p.2.1 - box.min_y,
                          pyInt p.2.2 - box.min_z),
             data := e.data }
    else none

/-- `_export_java_structure_nbt` as the document it serializes. -/
def exportJava (w : World) (box : Box) (include_entities remove_blocks : Bool) :
    StructureDoc :=
  let scanned := (scanCoords box).foldl (exportStep w box remove_blocks)
    (emptyPalette, [])
  { size := (box.max_x - box.min_x, box.max_y - box.min_y, box.max_z - box.min_z),
    palette := scanned.1.palette,
    blocks := scanned.2,
    entities := if include_entities then w.entities.filterMap (entityEntry box)
                else [] }

/-! ## Marker discovery -/

/-- `_is_structure_block` on the result of the guarded `get_block` call:
`none` models a raised lookup error (caught, giving `False`); otherwise only
`base_name` is compared. -/
def is_structure_block (blk : Option Block) : Bool :=
  match blk with
  | some b => decide (b.base_name = some "structure_block")
  | none => false

/-- A block-entity of a scanned chunk: its absolute position and its
attached node data (`none` when the `nbt` attribute is missing). -/
structure BlockEntityRec where
  pos : Int × Int × Int
  tag : Option Nbt

/-- The filter of `_iter_structure_blocks` over the block-entity stream of
the scanned chunks (chunk enumeration is the host's): keep a block-entity
inside some selection box whose voxel is a structure block and which carries
node data, paired with its parse result. -/
def iter_structure_blocks (blockAt : Int × Int × Int → Option Block)
    (boxes : List Box) (bes : List BlockEntityRec) :
    List ((Int × Int × Int) × Nbt × Option MarkerData) :=
  bes.filterMap fun be =>
    if in_any_box boxes be.pos then
      if is_structure_block (blockAt be.pos) then
        match be.tag with
        | none => none
        | some t => some (be.pos, t, parse_structure_block t)
      else none
    else none

/-- Line 484: keep the candidates whose parse succeeded. -/
def validRecords (found : List ((Int × Int × Int) × Nbt × Option MarkerData)) :
    List ((Int × Int × Int) × MarkerData) :=
  found.filterMap fun e => (e.2.2).map fun d => (e.1, d)

/-- Lines 500-507: the target box derived from a marker at `p` with offset
`o` and size `s`. -/
def derived_box (p o s : Int × Int × Int) : Box :=
  { min_x := p.1 + o.1, min_y := p.2.1 + o.2.1, min_z := p.2.2 + o.2.2,
    max_x := p.1 + o.1 + s.1, max_y := p.2.1 + o.2.1 + s.2.1,
    max_z := p.2.2 + o.2.2 + s.2.2 }

/-! ## The export loop (lines 495-539) -/

/-- The per-record loop: each record's export attempt either succeeds or
raises; a raise is caught at the record boundary (the loop recursion always
continues) and `i / total` is yielded after every record.  A record is
abstracted to the success bit of its export attempt. -/
def exportLoopAux (total : Rat) (i : Nat) : List Bool → List (Bool × Rat)
  | [] => []
  | ok :: rest => (ok, (i : Rat) / total) :: exportLoopAux total (i + 1) rest

/-- The whole loop over the resolved records, `enumerate(parsed, start=1)`. -/
def exportLoop (records : List Bool) : List (Bool × Rat) :=
  exportLoopAux (records.length : Rat) 1 records

/-! ## Generic list lemmas -/

theorem findSome?_none_char {α β : Type} (f : α → Option β) (l : List α) :
    l.findSome? f = none ↔ ∀ x ∈ l, f x = none := by
  induction l with
  | nil => simp
  | cons a l ih =>
    rw [List.findSome?_cons]
    cases hfa : f a with
    | some c => simp [hfa]
    | none => simp [hfa, ih]

theorem findSome?_some_char {α β : Type} (f : α → Option β) (l : List α) (b : β) :
    l.findSome? f = some b ↔
      ∃ l1 a l2, l = l1 ++ a :: l2 ∧ f a = some b ∧ ∀ x ∈ l1, f x = none := by
  induction l with
  | nil =>
    simp only [List.findSome?_nil]
    constructor
    · intro h; cases h
    · rintro ⟨l1, a, l2, hs, -, -⟩
      exact absurd hs.symm (List.append_ne_nil_of_right_ne_nil l1 (List.cons_ne_nil a l2))
  | cons a l ih =>
    cases hfa : f a with
    | some c =>
      rw [List.findSome?_cons]
      simp only [hfa]
      constructor
      · intro h
        exact ⟨[], a, l, rfl, by rw [hfa, h], by simp⟩
      · rintro ⟨l1, x, l2, hs, hfx, hnone⟩
        cases l1 with
        | nil =>
          simp only [List.nil_append, List.cons.injEq] at hs
          rw [← hs.1] at hfx
          rw [hfx] at hfa
          exact hfa.symm
        | cons y l1 =>
          simp only [List.cons_append, List.cons.injEq] at hs
          have hya : f a = none := hs.1 ▸ hnone y (List.mem_cons_self y l1)
          rw [hya] at hfa
          cases hfa
    | none =>
      rw [List.findSome?_cons]
      simp only [hfa]
      rw [ih]
      constructor
      · rintro ⟨l1, x, l2, hs, hfx, hnone⟩
        refine ⟨a :: l1, x, l2, by simp [hs], hfx, ?_⟩
        intro y hy
        rcases List.mem_cons.mp hy with h | h
        · rw [h]; exact hfa
        · exact hnone y h
      · rintro ⟨l1, x, l2, hs, hfx, hnone⟩
        cases l1 with
        | nil =>
          simp only [List.nil_append, List.cons.injEq] at hs
          rw [← hs.1] at hfx
          rw [hfx] at hfa
          cases hfa
        | cons y l1 =>
          simp only [List.cons_append, List.cons.injEq] at hs
          exact ⟨l1, x, l2, hs.2, hfx, fun u hu => hnone u (hs.1 ▸ List.mem_cons_of_mem y hu)⟩

theorem mem_rangeInt (lo hi a : Int) : a ∈ rangeInt lo hi ↔ lo ≤ a ∧ a < hi := by
  unfold rangeInt
  rw [List.mem_map]
  constructor
  · rintro ⟨i, hi', rfl⟩
    rw [List.mem_range] at hi'
    omega
  · rintro ⟨h1, h2⟩
    refine ⟨(a - lo).toNat, ?_, ?_⟩
    · rw [List.mem_range]; omega
    · omega

theorem inBox_iff (b : Box) (x y z : Int) :
    inBox b x y z = true ↔
      (b.min_x ≤ x ∧ x < b.max_x) ∧ (b.min_y ≤ y ∧ y < b.max_y) ∧
      (b.min_z ≤ z ∧ z < b.max_z) := by
  simp only [inBox, Bool.and_eq_true, decide_eq_true_eq]
  tauto

theorem mem_scanCoords (box : Box) (c : Int × Int × Int) :
    c ∈ scanCoords box ↔ inBox box c.1 c.2.1 c.2.2 = true := by
  rw [inBox_iff]
  simp only [scanCoords, List.mem_flatMap, List.mem_map, mem_rangeInt]
  constructor
  · rintro ⟨y', hy, z', hz, x', hx, rfl⟩
    exact ⟨hx, hy, hz⟩
  · rintro ⟨hx, hy, hz⟩
    exact ⟨c.2.1, hy, c.2.2, hz, c.1, hx, rfl⟩

/-! ## Sorting: the pair order is a total, transitive, antisymmetric order -/

theorem pairRel_total (a b : String × String) : pairRel a b ∨ pairRel b a := by
  rcases lt_trichotomy a.1 b.1 with h | h | h
  · exact Or.inl (Or.inl h)
  · rcases le_total a.2 b.2 with h2 | h2
    · exact Or.inl (Or.inr ⟨h, h2⟩)
    · exact Or.inr (Or.inr ⟨h.symm, h2⟩)
  · exact Or.inr (Or.inl h)

theorem pairRel_trans (a b c : String × String) :
    pairRel a b → pairRel b c → pairRel a c := by
  rintro (h1 | ⟨h1, h1'⟩) (h2 | ⟨h2, h2'⟩)
  · exact Or.inl (lt_trans h1 h2)
  · exact Or.inl (h2 ▸ h1)
  · exact Or.inl (h1 ▸ h2)
  · exact Or.inr ⟨h1.trans h2, le_trans h1' h2'⟩

theorem pairRel_antisymm (a b : String × String) :
    pairRel a b → pairRel b a → a = b := by
  rintro (h1 | ⟨h1, h1'⟩) (h2 | ⟨h2, h2'⟩)
  · exact absurd h2 (lt_asymm h1)
  · exact absurd h1 (h2 ▸ lt_irrefl _)
  · exact absurd h2 (h1 ▸ lt_irrefl _)
  · exact Prod.ext h1 (le_antisymm h1' h2')

instance : IsTotal (String × String) pairRel := ⟨pairRel_total⟩

instance : IsTrans (String × String) pairRel := ⟨pairRel_trans⟩

instance : IsAntisymm (String × String) pairRel := ⟨pairRel_antisymm⟩

/-- Two permutations of the same property pairs sort identically: the sorted
key component is order-independent. -/
theorem sortPairs_perm_eq {l1 l2 : List (String × String)} (h : l1.Perm l2) :
    sortPairs l1 = sortPairs l2 :=
  List.eq_of_perm_of_sorted
    ((List.perm_insertionSort pairRel l1).trans
      (h.trans (List.perm_insertionSort pairRel l2).symm))
    (List.sorted_insertionSort pairRel l1)
    (List.sorted_insertionSort pairRel l2)

/-! ## The palette invariant -/

theorem runPalette_nil (s : PaletteState) : runPalette s [] = ([], s) := rfl

theorem runPalette_cons (s : PaletteState) (b : Block) (bs : List Block) :
    runPalette s (b :: bs) =
      ((get_state_index s b).1 :: (runPalette (get_state_index s b).2 bs).1,
       (runPalette (get_state_index s b).2 bs).2) := rfl

theorem idxOfN_append_of_mem {k : StateKey} {l1 : List StateKey}
    (h : k ∈ l1) (l2 : List StateKey) : idxOfN k (l1 ++ l2) = idxOfN k l1 := by
  induction l1 with
  | nil => cases h
  | cons k' l1 ih =>
    by_cases hk : k' = k
    · simp [idxOfN, hk]
    · rcases List.mem_cons.mp h with h' | h'
      · exact absurd h'.symm hk
      · simp [idxOfN, hk, ih h']

theorem idxOfN_append_of_not_mem {k : StateKey} {l1 : List StateKey}
    (h : k ∉ l1) (l2 : List StateKey) :
    idxOfN k (l1 ++ l2) = l1.length + idxOfN k l2 := by
  induction l1 with
  | nil => simp
  | cons k' l1 ih =>
    have hk : k' ≠ k := fun he => h (he ▸ List.mem_cons_self k' l1)
    have h' : k ∉ l1 := fun hm => h (List.mem_cons_of_mem k' hm)
    rw [List.cons_append]
    show (if k' = k then 0 else idxOfN k (l1 ++ l2) + 1) = _
    rw [if_neg hk, ih h', List.length_cons]
    omega

theorem idxAssoc_append (l1 l2 : List StateKey) (n : Nat) :
    idxAssoc (l1 ++ l2) n = idxAssoc l1 n ++ idxAssoc l2 (n + l1.length) := by
  induction l1 generalizing n with
  | nil => simp [idxAssoc]
  | cons k l1 ih =>
    rw [List.cons_append]
    show (k, n) :: idxAssoc (l1 ++ l2) (n + 1) =
      ((k, n) :: idxAssoc l1 (n + 1)) ++ idxAssoc l2 (n + (k :: l1).length)
    rw [List.cons_append, ih (n + 1), List.length_cons]
    have harg : n + 1 + l1.length = n + (l1.length + 1) := by omega
    rw [harg]

theorem lookupIdx_idxAssoc (ks : List StateKey) (n : Nat) (k : StateKey) :
    lookupIdx (idxAssoc ks n) k =
      if k ∈ ks then some (n + idxOfN k ks) else none := by
  induction ks generalizing n with
  | nil => simp [idxAssoc, lookupIdx]
  | cons k' ks ih =>
    by_cases hk : k' = k
    · subst hk
      simp [idxAssoc, lookupIdx, idxOfN]
    · have hmem : (k ∈ k' :: ks) ↔ k ∈ ks := by
        constructor
        · intro h
          rcases List.mem_cons.mp h with h | h
          · exact absurd h.symm hk
          · exact h
        · exact List.mem_cons_of_mem k'
      show (if k' = k then some n else lookupIdx (idxAssoc ks (n + 1)) k) = _
      rw [if_neg hk, ih (n + 1)]
      by_cases hm : k ∈ ks
      · rw [if_pos hm, if_pos (hmem.mpr hm)]
        have hidx : idxOfN k (k' :: ks) = idxOfN k ks + 1 := by
          show (if k' = k then 0 else idxOfN k ks + 1) = _
          rw [if_neg hk]
        rw [hidx]
        congr 1
        omega
      · rw [if_neg hm, if_neg (fun hh => hm (hmem.mp hh))]

theorem firstOccsAux_nil (seen : List StateKey) : firstOccsAux seen [] = [] := rfl

theorem firstOccsAux_cons_mem {seen : List StateKey} {b : Block}
    (h : state_key b ∈ seen) (bs : List Block) :
    firstOccsAux seen (b :: bs) = firstOccsAux seen bs := by
  simp [firstOccsAux, h]

theorem firstOccsAux_cons_new {seen : List StateKey} {b : Block}
    (h : state_key b ∉ seen) (bs : List Block) :
    firstOccsAux seen (b :: bs) = b :: firstOccsAux (state_key b :: seen) bs := by
  simp [firstOccsAux, h]

theorem firstOccsAux_congr (bs : List Block) :
    ∀ s1 s2 : List StateKey, (∀ k, k ∈ s1 ↔ k ∈ s2) →
    firstOccsAux s1 bs = firstOccsAux s2 bs := by
  induction bs with
  | nil => intro s1 s2 _; rfl
  | cons b bs ih =>
    intro s1 s2 hs
    by_cases h : state_key b ∈ s1
    · rw [firstOccsAux_cons_mem h, firstOccsAux_cons_mem ((hs _).mp h)]
      exact ih s1 s2 hs
    · rw [firstOccsAux_cons_new h, firstOccsAux_cons_new (fun hm => h ((hs _).mpr hm))]
      refine congrArg _ (ih _ _ ?_)
      intro k
      simp [List.mem_cons, hs k]

/-- The central palette invariant: starting from a state whose dict maps the
distinct keys `ks` (with a palette of matching length), a push sequence
returns, for each pushed block, the position of its key among the distinct
keys in first-seen order, and extends the palette with one serialized entry
per novel key, in first-seen order. -/
theorem runPalette_go (bs : List Block) :
    ∀ (ks : List StateKey) (pal : List JavaState), pal.length = ks.length →
    runPalette ⟨pal, idxAssoc ks 0⟩ bs =
      (bs.map fun b =>
        idxOfN (state_key b) (ks ++ (firstOccsAux ks bs).map state_key),
       ⟨pal ++ (firstOccsAux ks bs).map universal_block_to_java_state,
        idxAssoc (ks ++ (firstOccsAux ks bs).map state_key) 0⟩) := by
  induction bs with
  | nil => intro ks pal _; simp [runPalette_nil, firstOccsAux_nil]
  | cons b bs ih =>
    intro ks pal hlen
    by_cases hm : state_key b ∈ ks
    · have hget : get_state_index ⟨pal, idxAssoc ks 0⟩ b =
          (idxOfN (state_key b) ks, ⟨pal, idxAssoc ks 0⟩) := by
        unfold get_state_index
        rw [lookupIdx_idxAssoc]
        simp [hm]
      rw [runPalette_cons, hget, firstOccsAux_cons_mem hm, ih ks pal hlen,
        List.map_cons, idxOfN_append_of_mem hm]
    · have hget : get_state_index ⟨pal, idxAssoc ks 0⟩ b =
          (pal.length,
           ⟨pal ++ [universal_block_to_java_state b],
            idxAssoc (ks ++ [state_key b]) 0⟩) := by
        unfold get_state_index
        rw [lookupIdx_idxAssoc]
        simp only [hm, if_false]
        rw [idxAssoc_append]
        simp [idxAssoc, hlen]
      have hlen' : (pal ++ [universal_block_to_java_state b]).length =
          (ks ++ [state_key b]).length := by
        simp [hlen]
      have hocc : firstOccsAux (ks ++ [state_key b]) bs =
          firstOccsAux (state_key b :: ks) bs := by
        refine firstOccsAux_congr bs _ _ ?_
        intro k
        simp [List.mem_append, List.mem_cons, or_comm]
      rw [runPalette_cons, hget, firstOccsAux_cons_new hm,
        ih (ks ++ [state_key b]) _ hlen', hocc, List.map_cons, List.map_cons,
        idxOfN_append_of_not_mem hm]
      simp [idxOfN, hlen, List.append_assoc]

/-! ## The voxel scan as filter plus palette run -/

/-- The coordinates of the box scan that survive the emptiness test. -/
def keptCoords (w : World) (box : Box) : List (Int × Int × Int) :=
  (scanCoords box).filter fun c => !(isEmptyVoxel (blkAt w c))

theorem exportStep_remove (w : World) (box : Box)
    (acc : PaletteState × List BlockEntry) (c : Int × Int × Int) :
    exportStep w box true acc c = acc := rfl

theorem foldl_exportStep_remove (w : World) (box : Box)
    (coords : List (Int × Int × Int)) (acc : PaletteState × List BlockEntry) :
    coords.foldl (exportStep w box true) acc = acc := by
  induction coords generalizing acc with
  | nil => rfl
  | cons c coords ih => rw [List.foldl_cons, exportStep_remove, ih]

theorem export_fold (w : World) (box : Box) (coords : List (Int × Int × Int)) :
    ∀ (s : PaletteState) (acc : List BlockEntry),
    coords.foldl (exportStep w box false) (s, acc) =
      ((runPalette s ((coords.filter fun c => !(isEmptyVoxel (blkAt w c))).map (blkAt w))).2,
       acc ++ List.zipWith (mkEntry w box)
         (coords.filter fun c => !(isEmptyVoxel (blkAt w c)))
         (runPalette s ((coords.filter fun c => !(isEmptyVoxel (blkAt w c))).map (blkAt w))).1) := by
  induction coords with
  | nil => intro s acc; simp [runPalette_nil]
  | cons c coords ih =>
    intro s acc
    rw [List.foldl_cons]
    by_cases hempty : isEmptyVoxel (blkAt w c) = true
    · have hstep : exportStep w box false (s, acc) c = (s, acc) := by
        simp [exportStep, hempty]
      have hfil : (c :: coords).filter (fun c => !(isEmptyVoxel (blkAt w c))) =
          coords.filter fun c => !(isEmptyVoxel (blkAt w c)) := by
        simp [List.filter_cons, hempty]
      rw [hstep, hfil, ih s acc]
    · have hstep : exportStep w box false (s, acc) c =
          ((get_state_index s (blkAt w c)).2,
           acc ++ [mkEntry w box c (get_state_index s (blkAt w c)).1]) := by
        simp [exportStep, hempty]
      have hfil : (c :: coords).filter (fun c => !(isEmptyVoxel (blkAt w c))) =
          c :: coords.filter fun c => !(isEmptyVoxel (blkAt w c)) := by
        simp [List.filter_cons, hempty]
      rw [hstep, ih, hfil, List.map_cons, runPalette_cons]
      simp

theorem zipWith_self_map {α β γ : Type} (f : α → β → γ) (g : α → β) (l : List α) :
    List.zipWith f l (l.map g) = l.map fun a => f a (g a) := by
  rw [List.zipWith_map_right, List.zipWith_same]

/-- The `blocks` list of a tree-mode export without the remove toggle: the
kept coordinates in scan order, each with the first-seen index of its state
key. -/
theorem exportJava_blocks (w : World) (box : Box) (inc : Bool) :
    (exportJava w box inc false).blocks =
      (keptCoords w box).map fun c =>
        mkEntry w box c (idxOfN (state_key (blkAt w c))
          (fsKeys ((keptCoords w box).map (blkAt w)))) := by
  show ((scanCoords box).foldl (exportStep w box false) (emptyPalette, [])).2 = _
  rw [show emptyPalette = ⟨[], idxAssoc [] 0⟩ from rfl, export_fold,
    runPalette_go _ [] [] rfl]
  simp only [List.nil_append]
  rw [show (scanCoords box).filter (fun c => !(isEmptyVoxel (blkAt w c))) =
    keptCoords w box from rfl]
  rw [List.map_map, zipWith_self_map]
  rfl

/-- The palette of a tree-mode export without the remove toggle: one
serialized entry per distinct kept state, in first-seen order. -/
theorem exportJava_palette (w : World) (box : Box) (inc : Bool) :
    (exportJava w box inc false).palette =
      (firstOccs ((keptCoords w box).map (blkAt w))).map
        universal_block_to_java_state := by
  show ((scanCoords box).foldl (exportStep w box false) (emptyPalette, [])).1.palette = _
  rw [show emptyPalette = ⟨[], idxAssoc [] 0⟩ from rfl, export_fold,
    runPalette_go _ [] [] rfl]
  simp [firstOccs, keptCoords]

/-! ## The export loop: progress stream -/

theorem exportLoopAux_map_fst (t : Rat) (rs : List Bool) :
    ∀ i : Nat, (exportLoopAux t i rs).map (fun r => r.1) = rs := by
  induction rs with
  | nil => intro i; rfl
  | cons ok rs ih => intro i; simp [exportLoopAux, ih]

theorem exportLoopAux_map_snd (t : Rat) (rs : List Bool) :
    ∀ i : Nat, (exportLoopAux t i rs).map (fun r => r.2) =
      (List.range rs.length).map fun j => ((i + j : Nat) : Rat) / t := by
  induction rs with
  | nil => intro i; rfl
  | cons ok rs ih =>
    intro i
    simp only [exportLoopAux, List.map_cons, List.length_cons,
      List.range_succ_eq_map, List.map_map, ih (i + 1)]
    refine congrArg₂ _ (by norm_num) ?_
    refine List.map_congr_left fun j _ => ?_
    have : i + 1 + j = i + (j + 1) := by omega
    simp [Function.comp, Nat.succ_eq_add_one, this]

theorem exportLoopAux_length (t : Rat) (rs : List Bool) :
    ∀ i : Nat, (exportLoopAux t i rs).length = rs.length := by
  induction rs with
  | nil => intro i; rfl
  | cons ok rs ih => intro i; simp [exportLoopAux, ih]

/-! ## Traversal equations of `_iter_nbt_tree` -/

theorem iterNbtTree_compound (kvs : List (String × Nbt)) (pfx : String) :
    iterNbtTree (.compound kvs) pfx =
      kvs.flatMap fun kv =>
        (cpath pfx kv.1, kv.1, kv.2) :: descendIter kv.2 (cpath pfx kv.1) := by
  induction kvs with
  | nil => simp [iterNbtTree]
  | cons kv rest ih =>
    obtain ⟨k, v⟩ := kv
    cases v <;> simp [iterNbtTree, descendIter, ih, List.flatMap_cons]

theorem iterListFrom_enum (vs : List Nbt) :
    ∀ (i : Nat) (pfx : String),
    iterListFrom vs i pfx =
      (List.enumFrom i vs).flatMap fun iv =>
        (lpath pfx iv.1, toString iv.1, iv.2) :: descendIter iv.2 (lpath pfx iv.1) := by
  induction vs with
  | nil => intro i pfx; simp [iterListFrom, List.enumFrom]
  | cons v rest ih =>
    intro i pfx
    cases v <;> simp [iterListFrom, descendIter, ih, List.enumFrom, List.flatMap_cons]

theorem iterNbtTree_list (vs : List Nbt) (pfx : String) :
    iterNbtTree (.list vs) pfx =
      (List.enumFrom 0 vs).flatMap fun iv =>
        (lpath pfx iv.1, toString iv.1, iv.2) :: descendIter iv.2 (lpath pfx iv.1) := by
  rw [← iterListFrom_enum]
  cases vs <;> simp [iterNbtTree, iterListFrom]

/-- The locator never returns a string that is empty after stripping. -/
theorem findFirstStr_ne_empty {t : Nbt} {subs : List String} {v : String}
    (h : findFirstStr t subs = some v) : v ≠ "" := by
  obtain ⟨l1, node, l2, _, hnode, _⟩ :=
    (findSome?_some_char (matchStr subs) (iterNbtTree t "") v).mp h
  unfold matchStr at hnode
  split at hnode
  · cases hs : nbtToStr node.2.2 with
    | some val =>
      simp only [hs] at hnode
      by_cases he : val.trim = ""
      · rw [if_pos he] at hnode; cases hnode
      · rw [if_neg he] at hnode
        exact Option.some.inj hnode ▸ he
    | none =>
      simp only [hs] at hnode
      cases hnode
  · cases hnode

/-- The entry produced for a contained object, in terms of its position
components. -/
theorem entityEntry_eq_of (box : Box) (e : Entity) (ex ey ez : Rat)
    (hpos : e.pos? = some (ex, ey, ez))
    (hin : (box.min_x : Rat) ≤ ex ∧ ex < (box.max_x : Rat) ∧
           (box.min_y : Rat) ≤ ey ∧ ey < (box.max_y : Rat) ∧
           (box.min_z : Rat) ≤ ez ∧ ez < (box.max_z : Rat)) :
    entityEntry box e =
      some { pos := (ex - (box.min_x : Rat), ey - (box.min_y : Rat),
                     ez - (box.min_z : Rat)),
             blockPos := (pyInt ex - box.min_x, pyInt ey - box.min_y,
                          pyInt ez - box.min_z),
             data := e.data } := by
  unfold entityEntry
  rw [hpos]
  dsimp only
  rw [if_pos hin]

/-! ## Concrete instances used by witnesses and counterexamples -/

/-- A marker voxel in the vanilla namespace. -/
def blkMarkerA : Block := ⟨some "minecraft", some "structure_block", []⟩

/-- A voxel with the marker base name under a different namespace. -/
def blkMarkerB : Block := ⟨some "custom", some "structure_block", []⟩

def demoBox : Box := ⟨0, 0, 0, 1, 1, 1⟩

def demoBes : List BlockEntityRec := [⟨(0, 0, 0), some Nbt.other⟩]

def demoBlockAt : Int × Int × Int → Option Block := fun _ => some blkMarkerB

/-- A target box with negative minimum, as derived from a marker in negative
world coordinates. -/
def cboxNeg : Box := ⟨-13, 65, -13, -10, 67, -10⟩

/-- An object at float position (-10.5, 65.0, -10.9), inside `cboxNeg`. -/
def centNeg : Entity := ⟨some (-21/2, 65, -109/10), Nbt.other⟩

/-- The Scenario D box [(10,65,10),(13,67,13)). -/
def dboxD : Box := ⟨10, 65, 10, 13, 67, 13⟩

/-- An object at the integer float position (11.0, 65.0, 12.0). -/
def entD : Entity := ⟨some (11, 65, 12), Nbt.other⟩

/-! ## The claims -/

/-- C1 (amended): for every free-floating object whose float position is
contained in the half-open target box, the entry's relative float position
is the float position minus box.min, and its relative block position is the
truncation toward zero of the absolute float position (Python `int()`) minus
box.min; the truncation agrees with the floor exactly on the nonnegative
(or integral) coordinates, so the original floor-based claim holds there but
fails for negative fractional coordinates. -/
theorem C1_entity_remap (box : Box) (e : Entity) (ex ey ez : Rat)
    (hpos : e.pos? = some (ex, ey, ez))
    (hin : (box.min_x : Rat) ≤ ex ∧ ex < (box.max_x : Rat) ∧
           (box.min_y : Rat) ≤ ey ∧ ey < (box.max_y : Rat) ∧
           (box.min_z : Rat) ≤ ez ∧ ez < (box.max_z : Rat)) :
    entityEntry box e =
      some { pos := (ex - (box.min_x : Rat), ey - (box.min_y : Rat),
                     ez - (box.min_z : Rat)),
             blockPos := (pyInt ex - box.min_x, pyInt ey - box.min_y,
                          pyInt ez - box.min_z),
             data := e.data }
    ∧ (∀ q : Rat, 0 ≤ q → pyInt q = ⌊q⌋) := by
  refine ⟨entityEntry_eq_of box e ex ey ez hpos hin, ?_⟩
  intro q hq
  unfold pyInt
  rw [if_pos hq]

/-- C1 witness: the Scenario D object (11.0, 65.0, 12.0) against the box
[(10,65,10),(13,67,13)) is included and remapped. -/
theorem C1_entity_remap_witness :
    entD.pos? = some (11, 65, 12)
    ∧ ((dboxD.min_x : Rat) ≤ 11 ∧ (11 : Rat) < (dboxD.max_x : Rat) ∧
       (dboxD.min_y : Rat) ≤ 65 ∧ (65 : Rat) < (dboxD.max_y : Rat) ∧
       (dboxD.min_z : Rat) ≤ 12 ∧ (12 : Rat) < (dboxD.max_z : Rat))
    ∧ entityEntry dboxD entD =
        some { pos := ((11 : Rat) - (dboxD.min_x : Rat),
                       (65 : Rat) - (dboxD.min_y : Rat),
                       (12 : Rat) - (dboxD.min_z : Rat)),
               blockPos := (pyInt 11 - dboxD.min_x, pyInt 65 - dboxD.min_y,
                            pyInt 12 - dboxD.min_z),
               data := entD.data } :=
  ⟨rfl, by decide,
   (C1_entity_remap dboxD entD 11 65 12 rfl (by decide)).1⟩

/-- C1 counterexample: at the box [(-13,65,-13),(-10,67,-10)) and the
contained float position (-10.5, 65.0, -10.9), the produced relative block
position is (3, 0, 3), while floor of the float position minus box.min is
(2, 0, 2): the claim's floor-based description fails on negative fractional
coordinates. -/
theorem C1_entity_remap_counterexample :
    (entityEntry cboxNeg centNeg).map (fun en => en.blockPos) = some (3, 0, 3)
    ∧ ((⌊(-21/2 : Rat)⌋ - cboxNeg.min_x, ⌊(65 : Rat)⌋ - cboxNeg.min_y,
        ⌊(-109/10 : Rat)⌋ - cboxNeg.min_z) : Int × Int × Int) = (2, 0, 2)
    ∧ ((3, 0, 3) : Int × Int × Int) ≠ (2, 0, 2) := by
  refine ⟨?_, ?_, by decide⟩
  · rw [entityEntry_eq_of cboxNeg centNeg (-21/2) 65 (-109/10) rfl
      (by norm_num [cboxNeg])]
    rw [Option.map_some']
    have hx : pyInt (-21/2 : Rat) = -10 := by
      unfold pyInt
      rw [if_neg (by norm_num)]
      norm_num [Int.ceil_eq_iff]
    have hy : pyInt (65 : Rat) = 65 := by
      unfold pyInt
      rw [if_pos (by norm_num)]
      norm_num
    have hz : pyInt (-109/10 : Rat) = -10 := by
      unfold pyInt
      rw [if_neg (by norm_num)]
      norm_num [Int.ceil_eq_iff]
    simp [hx, hy, hz, cboxNeg]
  · have hfx : ⌊(-21/2 : Rat)⌋ = -11 := by norm_num
    have hfy : ⌊(65 : Rat)⌋ = 65 := by norm_num
    have hfz : ⌊(-109/10 : Rat)⌋ = -11 := by norm_num
    simp [hfx, hfy, hfz, cboxNeg]

/-- C2 (amended): a block-entity encountered during marker discovery is
recognized as a marker candidate only if the voxel at its position has base
name "structure_block"; the namespace (and every other attribute) of the
voxel type is not consulted. -/
theorem C2_marker_filter (blockAt : Int × Int × Int → Option Block)
    (boxes : List Box) (bes : List BlockEntityRec)
    (p : Int × Int × Int) (t : Nbt) (r : Option MarkerData)
    (hmem : (p, t, r) ∈ iter_structure_blocks blockAt boxes bes) :
    (∃ b : Block, blockAt p = some b ∧ b.base_name = some "structure_block")
    ∧ (∀ b : Block, is_structure_block (some b) = true ↔
        b.base_name = some "structure_block")
    ∧ (∀ (ns1 ns2 bn : Option String) (pr1 pr2 : List (String × String)),
        is_structure_block (some ⟨ns1, bn, pr1⟩) =
          is_structure_block (some ⟨ns2, bn, pr2⟩)) := by
  refine ⟨?_, fun b => by simp [is_structure_block], fun ns1 ns2 bn pr1 pr2 => rfl⟩
  obtain ⟨be, hbe, hf⟩ := List.mem_filterMap.mp hmem
  split at hf
  · split at hf
    · rename_i hsb
      cases htag : be.tag with
      | none => rw [htag] at hf; cases hf
      | some t' =>
        rw [htag] at hf
        have hp : be.pos = p := congrArg (fun x => x.1) (Option.some.inj hf)
        rw [hp] at hsb
        cases hblk : blockAt p with
        | none => rw [hblk] at hsb; cases hsb
        | some b =>
          refine ⟨b, rfl, ?_⟩
          rw [hblk] at hsb
          simpa [is_structure_block] using hsb
    · cases hf
  · cases hf

/-- C2 witness: a block-entity over a voxel of type custom:structure_block,
inside the selection, is taken as a marker candidate. -/
theorem C2_marker_filter_witness :
    (((0, 0, 0), Nbt.other, (none : Option MarkerData)) ∈
        iter_structure_blocks demoBlockAt [demoBox] demoBes)
    ∧ (∃ b : Block, demoBlockAt (0, 0, 0) = some b ∧
        b.base_name = some "structure_block") := by
  have hother : iterNbtTree Nbt.other "" = [] := by simp [iterNbtTree]
  have hparse : parse_structure_block Nbt.other = none := by
    simp [parse_structure_block, findFirstStr, hother]
  have hmem : ((0, 0, 0), Nbt.other, (none : Option MarkerData)) ∈
      iter_structure_blocks demoBlockAt [demoBox] demoBes := by
    simp [iter_structure_blocks, demoBes, demoBlockAt, demoBox, in_any_box, inBox,
      is_structure_block, blkMarkerB, hparse]
  exact ⟨hmem, (C2_marker_filter demoBlockAt [demoBox] demoBes _ _ _ hmem).1⟩

/-- C2 counterexample: two voxels that agree in base name but differ in
namespace are both recognized, so recognition cannot be a match of the
namespace-qualified type name (no designated namespace and base name can
make the claim's "only if" true). -/
theorem C2_marker_filter_counterexample :
    is_structure_block (some blkMarkerA) = true
    ∧ is_structure_block (some blkMarkerB) = true
    ∧ blkMarkerA.nspace ≠ blkMarkerB.nspace
    ∧ ¬ ∃ nsd bnd : String, ∀ b : Block,
        is_structure_block (some b) = true →
          b.nspace = some nsd ∧ b.base_name = some bnd := by
  refine ⟨by decide, by decide, by decide, ?_⟩
  rintro ⟨nsd, bnd, h⟩
  have hA := (h blkMarkerA (by decide)).1
  have hB := (h blkMarkerB (by decide)).1
  have : blkMarkerA.nspace = blkMarkerB.nspace := hA.trans hB.symm
  exact absurd this (by decide)

/-- C3: over any push sequence, the palette builder returns for each pushed
state the position of its key among the distinct keys in first-seen order
(hence equal states - equal keys - get equal indices, and the index space is
0-based and dense: index i is the i-th distinct state); a novel state is
assigned `len(palette)`; and the key is order-independent in the property
pairs. -/
theorem C3_palette_builder (bs : List Block) :
    (runPalette emptyPalette bs).1 =
      bs.map (fun b => idxOfN (state_key b) (fsKeys bs))
    ∧ (runPalette emptyPalette bs).2.palette =
        (firstOccs bs).map universal_block_to_java_state
    ∧ (∀ (s : PaletteState) (b : Block),
        lookupIdx s.palette_index (state_key b) = none →
        (get_state_index s b).1 = s.palette.length)
    ∧ (∀ b1 b2 : Block, b1.nspace = b2.nspace → b1.base_name = b2.base_name →
        b1.properties.Perm b2.properties → state_key b1 = state_key b2) := by
  refine ⟨?_, ?_, ?_, ?_⟩
  · rw [show emptyPalette = ⟨[], idxAssoc [] 0⟩ from rfl, runPalette_go bs [] [] rfl]
    simp [fsKeys, firstOccs]
  · rw [show emptyPalette = ⟨[], idxAssoc [] 0⟩ from rfl, runPalette_go bs [] [] rfl]
    simp [firstOccs]
  · intro s b h
    unfold get_state_index
    rw [h]
  · intro b1 b2 h1 h2 hp
    unfold state_key
    rw [h1, h2, sortPairs_perm_eq hp]

/-- C4: the target box derived from a marker record at `p` with offset `o`
and size `s` is the half-open box [p+o, p+o+s); in particular position
(10,64,10), offset (0,1,0), size (3,2,3) give [(10,65,10),(13,67,13)). -/
theorem C4_derived_box (p o s : Int × Int × Int) :
    ((derived_box p o s).min_x = p.1 + o.1 ∧
     (derived_box p o s).min_y = p.2.1 + o.2.1 ∧
     (derived_box p o s).min_z = p.2.2 + o.2.2 ∧
     (derived_box p o s).max_x = p.1 + o.1 + s.1 ∧
     (derived_box p o s).max_y = p.2.1 + o.2.1 + s.2.1 ∧
     (derived_box p o s).max_z = p.2.2 + o.2.2 + s.2.2)
    ∧ (∀ x y z : Int, inBox (derived_box p o s) x y z = true ↔
        ((p.1 + o.1 ≤ x ∧ x < p.1 + o.1 + s.1) ∧
         (p.2.1 + o.2.1 ≤ y ∧ y < p.2.1 + o.2.1 + s.2.1) ∧
         (p.2.2 + o.2.2 ≤ z ∧ z < p.2.2 + o.2.2 + s.2.2)))
    ∧ derived_box (10, 64, 10) (0, 1, 0) (3, 2, 3) = ⟨10, 65, 10, 13, 67, 13⟩ := by
  refine ⟨⟨rfl, rfl, rfl, rfl, rfl, rfl⟩, ?_, by decide⟩
  intro x y z
  rw [inBox_iff]
  exact Iff.rfl

/-- C5: in tree mode with the remove toggle off, the blocks list is exactly
the non-empty voxels of the box, visited in Y-major, then Z, then X order,
each entry carrying its box-relative position and the first-seen palette
index of its state. -/
theorem C5_scan_blocks (w : World) (box : Box) (inc : Bool) :
    (exportJava w box inc false).blocks =
      (keptCoords w box).map (fun c =>
        mkEntry w box c (idxOfN (state_key (blkAt w c))
          (fsKeys ((keptCoords w box).map (blkAt w)))))
    ∧ keptCoords w box =
        (scanCoords box).filter (fun c => !(isEmptyVoxel (blkAt w c)))
    ∧ scanCoords box =
        (rangeInt box.min_y box.max_y).flatMap (fun y =>
          (rangeInt box.min_z box.max_z).flatMap fun z =>
            (rangeInt box.min_x box.max_x).map fun x => (x, y, z))
    ∧ (∀ c : Int × Int × Int, c ∈ scanCoords box ↔ inBox box c.1 c.2.1 c.2.2 = true)
    ∧ (∀ (c : Int × Int × Int) (i : Nat),
        (mkEntry w box c i).pos =
          (c.1 - box.min_x, c.2.1 - box.min_y, c.2.2 - box.min_z) ∧
        (mkEntry w box c i).state = i) :=
  ⟨exportJava_blocks w box inc, rfl, rfl, mem_scanCoords box,
   fun _ _ => ⟨rfl, rfl⟩⟩

/-- C6: the locator's traversal is depth-first - at a compound node children
in native order, each child's value yielded before descending; at a sequence
node children in index order - and `_find_first_str` returns the (stripped)
value of the first yielded node whose lowercased key matches and whose value
is a nonempty string after stripping, while `_find_first_int` uses the same
traversal and key matching but skips nodes whose value does not coerce to an
integer, continuing to the next match. -/
theorem C6_locator :
    (∀ (kvs : List (String × Nbt)) (pfx : String),
      iterNbtTree (.compound kvs) pfx =
        kvs.flatMap fun kv =>
          (cpath pfx kv.1, kv.1, kv.2) :: descendIter kv.2 (cpath pfx kv.1))
    ∧ (∀ (vs : List Nbt) (pfx : String),
      iterNbtTree (.list vs) pfx =
        (List.enumFrom 0 vs).flatMap fun iv =>
          (lpath pfx iv.1, toString iv.1, iv.2) :: descendIter iv.2 (lpath pfx iv.1))
    ∧ (∀ (t : Nbt) (subs : List String) (v : String),
      findFirstStr t subs = some v ↔
        ∃ l1 node l2, iterNbtTree t "" = l1 ++ node :: l2 ∧
          matchStr subs node = some v ∧ ∀ x ∈ l1, matchStr subs x = none)
    ∧ (∀ (t : Nbt) (subs : List String) (n : Int),
      findFirstInt t subs = some n ↔
        ∃ l1 node l2, iterNbtTree t "" = l1 ++ node :: l2 ∧
          matchInt subs node = some n ∧ ∀ x ∈ l1, matchInt subs x = none)
    ∧ (∀ (t : Nbt) (subs : List String),
      findFirstInt t subs = none ↔
        ∀ node ∈ iterNbtTree t "", matchInt subs node = none) :=
  ⟨iterNbtTree_compound, iterNbtTree_list,
   fun t subs v => findSome?_some_char (matchStr subs) (iterNbtTree t "") v,
   fun t subs n => findSome?_some_char (matchInt subs) (iterNbtTree t "") n,
   fun t subs => findSome?_none_char (matchInt subs) (iterNbtTree t "")⟩

/-- C7: a candidate yields a record iff the identifier and all six integers
are found and every size component is strictly positive; a failed candidate
contributes nothing and the surrounding scan goes on over the other
candidates unchanged. -/
theorem C7_parse_record (tag : Nbt) :
    ((parse_structure_block tag).isSome ↔
      ((findFirstStr tag nameSubs).isSome ∧
       (findFirstInt tag oxSubs).isSome ∧ (findFirstInt tag oySubs).isSome ∧
       (findFirstInt tag ozSubs).isSome ∧
       (findFirstInt tag sxSubs).isSome ∧ (findFirstInt tag sySubs).isSome ∧
       (findFirstInt tag szSubs).isSome ∧
       (∀ v, findFirstInt tag sxSubs = some v → 0 < v) ∧
       (∀ v, findFirstInt tag sySubs = some v → 0 < v) ∧
       (∀ v, findFirstInt tag szSubs = some v → 0 < v)))
    ∧ (∀ (l1 l2 : List Nbt) (t : Nbt), parse_structure_block t = none →
        (l1 ++ t :: l2).filterMap parse_structure_block =
          (l1 ++ l2).filterMap parse_structure_block) := by
  constructor
  · cases hn : findFirstStr tag nameSubs with
    | none => simp [parse_structure_block, hn]
    | some name =>
      have hne : name ≠ "" := findFirstStr_ne_empty hn
      cases h1 : findFirstInt tag oxSubs with
      | none => simp [parse_structure_block, hn, hne, h1]
      | some ox =>
      cases h2 : findFirstInt tag oySubs with
      | none => simp [parse_structure_block, hn, hne, h1, h2]
      | some oy =>
      cases h3 : findFirstInt tag ozSubs with
      | none => simp [parse_structure_block, hn, hne, h1, h2, h3]
      | some oz =>
      cases h4 : findFirstInt tag sxSubs with
      | none => simp [parse_structure_block, hn, hne, h1, h2, h3, h4]
      | some sx =>
      cases h5 : findFirstInt tag sySubs with
      | none => simp [parse_structure_block, hn, hne, h1, h2, h3, h4, h5]
      | some sy =>
      cases h6 : findFirstInt tag szSubs with
      | none => simp [parse_structure_block, hn, hne, h1, h2, h3, h4, h5, h6]
      | some sz =>
        have hps : parse_structure_block tag =
            if sx ≤ 0 ∨ sy ≤ 0 ∨ sz ≤ 0 then none
            else some ⟨name, (ox, oy, oz), (sx, sy, sz)⟩ := by
          unfold parse_structure_block
          simp only [hn, h1, h2, h3, h4, h5, h6, if_neg hne]
        rw [hps]
        by_cases hc : sx ≤ 0 ∨ sy ≤ 0 ∨ sz ≤ 0
        · rw [if_pos hc]
          simp only [Option.isSome_none, Option.isSome_some, Bool.false_eq_true,
            false_iff, Option.some.injEq, forall_eq', true_and]
          omega
        · rw [if_neg hc]
          simp only [Option.isSome_none, Option.isSome_some, Option.some.injEq,
            forall_eq', true_and, true_iff]
          omega
  · intro l1 l2 t h
    simp [List.filterMap_append, List.filterMap_cons, h]

/-- C8: the per-record loop survives failing exports - every record is
processed (same length, outcomes in order) - and yields the progress stream
1/total, 2/total, ..., which is strictly increasing and ends at exactly 1. -/
theorem C8_export_loop (records : List Bool) (h : records ≠ []) :
    (exportLoop records).length = records.length
    ∧ (exportLoop records).map (fun r => r.1) = records
    ∧ (exportLoop records).map (fun r => r.2) =
        (List.range records.length).map
          (fun j => ((1 + j : Nat) : Rat) / (records.length : Rat))
    ∧ ((exportLoop records).map (fun r => r.2)).Pairwise (· < ·)
    ∧ ((exportLoop records).map (fun r => r.2)).head? =
        some (1 / (records.length : Rat))
    ∧ ((exportLoop records).map (fun r => r.2)).getLast? = some 1 := by
  have hn : records.length ≠ 0 := fun hz => h (List.length_eq_zero.mp hz)
  obtain ⟨m, hm⟩ := Nat.exists_eq_succ_of_ne_zero hn
  have hps : (exportLoop records).map (fun r => r.2) =
      (List.range records.length).map
        (fun j => ((1 + j : Nat) : Rat) / (records.length : Rat)) :=
    exportLoopAux_map_snd (records.length : Rat) records 1
  have hpos : (0 : Rat) < (records.length : Rat) := by
    exact_mod_cast Nat.pos_of_ne_zero hn
  refine ⟨exportLoopAux_length _ records 1, exportLoopAux_map_fst _ records 1,
    hps, ?_, ?_, ?_⟩
  · rw [hps]
    refine List.Pairwise.map _ ?_ (List.pairwise_lt_range records.length)
    intro a b hab
    have hcast : ((1 + a : Nat) : Rat) < ((1 + b : Nat) : Rat) := by
      exact_mod_cast (by omega : 1 + a < 1 + b)
    exact (div_lt_div_iff_of_pos_right hpos).mpr hcast
  · rw [hps, hm, List.range_succ_eq_map, List.map_cons, List.head?_cons]
    norm_num
  · rw [hps, hm, List.range_succ, List.map_append, List.map_cons, List.map_nil,
      List.getLast?_concat]
    have h1m : ((1 + m : Nat) : Rat) = ((m + 1 : Nat) : Rat) := by
      norm_num [Nat.add_comm]
    rw [h1m, div_self (by exact_mod_cast Nat.succ_ne_zero m)]

/-- C8 witness: a run of two records, the second of which fails, still
reports both records and the progress stream of length two. -/
theorem C8_export_loop_witness :
    [true, false] ≠ [] ∧ (exportLoop [true, false]).length = [true, false].length :=
  ⟨by decide, (C8_export_loop [true, false] (by decide)).1⟩

/-- C9: in tree mode with the remove toggle on, the document keeps the box
dimensions as its size while the blocks list and the palette stay empty (no
voxel is read into either), and the entities list is exactly what the
include-objects toggle alone determines - the same list as with the toggle
off. -/
theorem C9_remove_blocks (w : World) (box : Box) (inc : Bool) :
    exportJava w box inc true =
      { size := (box.max_x - box.min_x, box.max_y - box.min_y,
                 box.max_z - box.min_z),
        palette := [], blocks := [],
        entities := if inc then w.entities.filterMap (entityEntry box) else [] }
    ∧ (exportJava w box inc true).entities = (exportJava w box inc false).entities := by
  constructor
  · simp only [exportJava]
    rw [foldl_exportStep_remove]
    rfl
  · simp only [exportJava]

/-- C10: the emptiness test of the per-voxel scan inspects only the base
name: a voxel with base name "air" is skipped whatever its namespace or
properties, a voxel without the attribute is treated as empty, and every
other voxel is kept - the blocks list holds exactly the positions whose
voxel fails the test. -/
theorem C10_empty_test (w : World) (box : Box) (inc : Bool) :
    (∀ b : Block, isEmptyVoxel b = true ↔
      (b.base_name = none ∨ b.base_name = some "air"))
    ∧ (∀ (ns1 ns2 bn : Option String) (pr1 pr2 : List (String × String)),
        isEmptyVoxel ⟨ns1, bn, pr1⟩ = isEmptyVoxel ⟨ns2, bn, pr2⟩)
    ∧ ((exportJava w box inc false).blocks.map (fun e => e.pos) =
        ((scanCoords box).filter (fun c => !(isEmptyVoxel (blkAt w c)))).map
          (fun c => (c.1 - box.min_x, c.2.1 - box.min_y, c.2.2 - box.min_z))) := by
  refine ⟨?_, fun ns1 ns2 bn pr1 pr2 => rfl, ?_⟩
  · intro b
    cases hb : b.base_name with
    | none => simp [isEmptyVoxel, hb]
    | some v => simp [isEmptyVoxel, hb]
  · rw [exportJava_blocks, List.map_map]
    rfl

end StructureBlockExporter
